import Mathlib

/-!
Shallow embedding of the feature-detection core of the `evolver_remesher`
repository (`src/core_auto_sharp.py`) and proofs about it.

Modelling conventions:
* Python floats become `ℚ`; machine integers become `ℕ`.
* `BMEdge`/`BMFace`/`BMesh` carry exactly the attributes the core reads or
  writes.  Edges are referred to by their index into `BMesh.edges` (the
  source uses object identity; indices are the stable analogue).
* `mathutils.Vector.angle` is an external library function, so it enters the
  embedding as an explicit function parameter `angle : Vec3 → Vec3 → ℚ`.
* Python `print` diagnostics relevant to the claims (the unknown-type
  warning in `am3_filter_refine_prioritize`) are modelled as a returned list
  of the offending type names; other prints are pure logging and are elided.
* Python sets of edges produced by the detectors are modelled as the list of
  edge indices in edge-iteration order (the order a detector visits
  `bm.edges`); the final selected set is a `Finset ℕ`.
-/

/-- 3-component vector (`mathutils.Vector`), components as rationals. -/
abbrev Vec3 : Type := ℚ × ℚ × ℚ

/-- `BMFace`: only the face normal is read by the core. -/
structure BMFace where
  normal : Vec3
deriving DecidableEq, Repr

/-- `BMEdge` attributes read or written by `core_auto_sharp.py`. -/
structure BMEdge where
  verts : ℕ × ℕ
  link_faces : List BMFace
  smooth : Bool := true
  use_edge_sharp : Bool := false
  crease : ℚ := 0
  seam : Bool := false
  bevel_weight : ℚ := 0
  is_valid : Bool := true
deriving DecidableEq, Repr

/-- `BMesh`: the edge table plus whether an active UV layer exists
(`bm.loops.layers.uv.active` being non-None). -/
structure BMesh where
  edges : List BMEdge
  has_uv_layer : Bool := false
deriving DecidableEq, Repr

/-- `EvolverAutoSharpSettings` (src/properties.py): the fields consumed by
`auto_detect_and_mark_edges`. -/
structure EvolverAutoSharpSettings where
  auto_sharp_primary_angle : ℚ
  auto_sharp_use_existing_sharps : Bool
  auto_sharp_use_existing_creases : Bool
  auto_sharp_min_crease_value : ℚ
  auto_sharp_use_existing_seams : Bool
  auto_sharp_use_bevel_weights : Bool
  auto_sharp_min_bevel_weight : ℚ
  auto_sharp_use_curvature : Bool
  auto_sharp_curvature_sensitivity : ℚ
  auto_sharp_preserve_uv_boundaries : Bool
  auto_sharp_min_feature_length : ℕ
deriving DecidableEq, Repr

-- Detection-type constants (src/core_auto_sharp.py lines 8-15).
def TYPE_NONE : String := "NONE"

def TYPE_BLENDER_SEAM : String := "BLENDER_SEAM"

def TYPE_UV_SEAM_BOUNDARY : String := "UV_SEAM_BOUNDARY"

def TYPE_BLENDER_SHARP : String := "BLENDER_SHARP"

def TYPE_BLENDER_CREASE : String := "BLENDER_CREASE"

def TYPE_ANGLE_SHARP : String := "ANGLE_SHARP"

def TYPE_CURVATURE_SHARP : String := "CURVATURE_SHARP"

def TYPE_BLENDER_BEVEL : String := "BLENDER_BEVEL"

/-- `PRIORITY_ORDER` (lines 22-30): lower index = higher priority. -/
def PRIORITY_ORDER : List String :=
  [TYPE_UV_SEAM_BOUNDARY, TYPE_BLENDER_SEAM, TYPE_BLENDER_SHARP,
   TYPE_BLENDER_CREASE, TYPE_ANGLE_SHARP, TYPE_CURVATURE_SHARP,
   TYPE_BLENDER_BEVEL]

/-- Python `list.index` returning `none` instead of raising `ValueError`:
index of the first occurrence of `t`. -/
def listIndexOf (t : String) : List String → Option ℕ
  | [] => none
  | s :: rest => if s = t then some 0 else (listIndexOf t rest).map (· + 1)

/-- `PRIORITY_ORDER.index(detection_type)`, `none` for the `ValueError`
path of `am3_filter_refine_prioritize`. -/
def priorityIndex (t : String) : Option ℕ := listIndexOf t PRIORITY_ORDER

/-- A detection candidate: `(detection_type, metric_value)`. -/
abbrev Detection : Type := String × ℚ

/-- The priority index of a detection as a `WithTop ℕ`, `⊤` standing for the
Python `float('inf')` used for unknown types. -/
def idxE (d : Detection) : WithTop ℕ :=
  match priorityIndex d.1 with
  | some n => (n : WithTop ℕ)
  | none => ⊤

/-- Least priority index occurring in a detection list (`⊤` if none). -/
def minIdx (dets : List Detection) : WithTop ℕ :=
  (dets.map idxE).foldr min ⊤

/-- One iteration of the priority-resolution loop
(`am3_filter_refine_prioritize`, lines 278-289).  State:
`(winning_detection, current_best_priority_index, warnings)`.  The `none`
branch models the `except ValueError` handler: a warning is recorded and the
guard `float('inf') < current_best_priority_index` (never true) is kept
literally. -/
def resolveStep (acc : Detection × WithTop ℕ × List String) (d : Detection) :
    Detection × WithTop ℕ × List String :=
  match priorityIndex d.1 with
  | some i =>
      if (i : WithTop ℕ) < acc.2.1 then (d, (i : WithTop ℕ), acc.2.2) else acc
  | none =>
      if (⊤ : WithTop ℕ) < acc.2.1 then (d, acc.2.1, acc.2.2 ++ [d.1])
      else (acc.1, acc.2.1, acc.2.2 ++ [d.1])

/-- Priority resolution for one edge's detection list (lines 271-291):
`winning_detection` defaults to `detections[0]`,
`current_best_priority_index` to `float('inf')`, then every detection is
examined.  Returns the winning detection plus the warned-about unknown type
names; `none` corresponds to `if not detections: continue`. -/
def resolveDetections (dets : List Detection) :
    Option (Detection × List String) :=
  match dets with
  | [] => none
  | d0 :: _ =>
      let r := dets.foldl resolveStep (d0, (⊤ : WithTop ℕ), [])
      some (r.1, r.2.2)

/-- The detection types of `dets` that are not in `PRIORITY_ORDER`, in
order: exactly the warnings the resolution loop prints. -/
def unknownTypes (dets : List Detection) : List String :=
  dets.filterMap fun d =>
    match priorityIndex d.1 with
    | some _ => none
    | none => some d.1

-- ### Basic lemmas about `listIndexOf`, `idxE`, `minIdx`

theorem listIndexOf_get? {t : String} {l : List String} {n : ℕ}
    (h : listIndexOf t l = some n) : l.get? n = some t := by
  induction l generalizing n with
  | nil => simp [listIndexOf] at h
  | cons s rest ih =>
      by_cases hs : s = t
      · simp [listIndexOf, hs] at h
        subst h
        simp [hs]
      · simp [listIndexOf, hs] at h
        obtain ⟨m, hm, rfl⟩ := h
        simpa using ih hm

theorem minIdx_nil : minIdx [] = ⊤ := rfl

theorem minIdx_cons (d : Detection) (dets : List Detection) :
    minIdx (d :: dets) = min (idxE d) (minIdx dets) := rfl

theorem minIdx_le {d : Detection} {dets : List Detection} (h : d ∈ dets) :
    minIdx dets ≤ idxE d := by
  induction dets with
  | nil => simp at h
  | cons d0 rest ih =>
      rcases List.mem_cons.mp h with h | h
      · rw [h, minIdx_cons]; exact min_le_left _ _
      · rw [minIdx_cons]
        exact le_trans (min_le_right _ _) (ih h)

theorem idxE_lt_top_of_isSome {d : Detection}
    (h : (priorityIndex d.1).isSome = true) : idxE d < ⊤ := by
  rcases hp : priorityIndex d.1 with _ | n
  · rw [hp] at h; simp at h
  · simp [idxE, hp]

theorem idxE_isSome_of_lt_top {d : Detection} (h : idxE d < ⊤) :
    (priorityIndex d.1).isSome = true := by
  rcases hp : priorityIndex d.1 with _ | n
  · exfalso
    rw [idxE, hp] at h
    exact lt_irrefl _ h
  · simp

/-- Main characterisation of the priority-resolution fold. -/
theorem resolveFold_spec (dets : List Detection) :
    ∀ w₀ : Detection, ∀ b₀ : WithTop ℕ, ∀ ws₀ : List String,
      (dets.foldl resolveStep (w₀, b₀, ws₀)).2.1 = min b₀ (minIdx dets) ∧
      (minIdx dets < b₀ →
        (dets.foldl resolveStep (w₀, b₀, ws₀)).1 ∈ dets ∧
        idxE (dets.foldl resolveStep (w₀, b₀, ws₀)).1 = minIdx dets) ∧
      (¬ minIdx dets < b₀ →
        (dets.foldl resolveStep (w₀, b₀, ws₀)).1 = w₀) ∧
      (dets.foldl resolveStep (w₀, b₀, ws₀)).2.2 = ws₀ ++ unknownTypes dets := by
  induction dets with
  | nil =>
      intro w₀ b₀ ws₀
      refine ⟨?_, ?_, ?_, ?_⟩
      · simp [minIdx_nil]
      · intro h; exact absurd h (not_top_lt)
      · intro _; rfl
      · simp [unknownTypes]
  | cons d rest ih =>
      intro w₀ b₀ ws₀
      rcases hp : priorityIndex d.1 with _ | i
      · -- unknown type: warning appended, winner/best unchanged
        have hstep : resolveStep (w₀, b₀, ws₀) d = (w₀, b₀, ws₀ ++ [d.1]) := by
          simp [resolveStep, hp, not_top_lt]
        have hidx : idxE d = ⊤ := by simp [idxE, hp]
        have hmin : minIdx (d :: rest) = minIdx rest := by
          rw [minIdx_cons, hidx]
          exact min_eq_right le_top
        obtain ⟨h1, h2, h3, h4⟩ := ih w₀ b₀ (ws₀ ++ [d.1])
        refine ⟨?_, ?_, ?_, ?_⟩
        · simpa [List.foldl, hstep, hmin] using h1
        · intro hlt
          rw [hmin] at hlt
          obtain ⟨hmem, hval⟩ := h2 hlt
          exact ⟨List.mem_cons_of_mem _ (by simpa [List.foldl, hstep] using hmem),
            by simpa [List.foldl, hstep, hmin] using hval⟩
        · intro hnlt
          rw [hmin] at hnlt
          simpa [List.foldl, hstep] using h3 hnlt
        · have : unknownTypes (d :: rest) = d.1 :: unknownTypes rest := by
            simp [unknownTypes, hp]
          simp only [List.foldl, hstep, this]
          rw [h4, List.append_assoc]
          rfl
      · have hidx : idxE d = (i : WithTop ℕ) := by simp [idxE, hp]
        by_cases hlt : (i : WithTop ℕ) < b₀
        · -- d becomes the new winner
          have hstep : resolveStep (w₀, b₀, ws₀) d = (d, (i : WithTop ℕ), ws₀) := by
            simp [resolveStep, hp, hlt]
          obtain ⟨h1, h2, h3, h4⟩ := ih d (i : WithTop ℕ) ws₀
          have hminc : minIdx (d :: rest) = min (i : WithTop ℕ) (minIdx rest) := by
            rw [minIdx_cons, hidx]
          refine ⟨?_, ?_, ?_, ?_⟩
          · simp only [List.foldl, hstep, h1, hminc]
            exact (min_eq_right (le_trans (min_le_left _ _) (le_of_lt hlt))).symm
          · intro _
            by_cases hmr : minIdx rest < (i : WithTop ℕ)
            · obtain ⟨hmem, hval⟩ := h2 hmr
              refine ⟨List.mem_cons_of_mem _ (by simpa [List.foldl, hstep] using hmem), ?_⟩
              rw [hminc, min_eq_right (le_of_lt hmr)]
              simpa [List.foldl, hstep] using hval
            · have hw := h3 hmr
              refine ⟨?_, ?_⟩
              · simp only [List.foldl, hstep, hw]
                exact List.mem_cons_self _ _
              · simp only [List.foldl, hstep, hw]
                rw [hminc, min_eq_left (not_lt.mp hmr), hidx]
          · intro hnlt
            exfalso
            apply hnlt
            rw [hminc]
            exact lt_of_le_of_lt (min_le_left _ _) hlt
          · have : unknownTypes (d :: rest) = unknownTypes rest := by
              simp [unknownTypes, hp]
            simp only [List.foldl, hstep, this]
            exact h4
        · -- d does not beat the current best
          have hstep : resolveStep (w₀, b₀, ws₀) d = (w₀, b₀, ws₀) := by
            simp [resolveStep, hp, hlt]
          obtain ⟨h1, h2, h3, h4⟩ := ih w₀ b₀ ws₀
          have hble : b₀ ≤ (i : WithTop ℕ) := not_lt.mp hlt
          have hminc : minIdx (d :: rest) = min (i : WithTop ℕ) (minIdx rest) := by
            rw [minIdx_cons, hidx]
          refine ⟨?_, ?_, ?_, ?_⟩
          · simp only [List.foldl, hstep, h1, hminc]
            rw [← min_assoc, min_eq_left hble]
          · intro hltc
            rw [hminc] at hltc
            rcases min_lt_iff.mp hltc with hc | hc
            · exact absurd hc hlt
            · obtain ⟨hmem, hval⟩ := h2 hc
              refine ⟨List.mem_cons_of_mem _ (by simpa [List.foldl, hstep] using hmem), ?_⟩
              rw [hminc, min_eq_right (le_of_lt (lt_of_lt_of_le hc hble))]
              simpa [List.foldl, hstep] using hval
          · intro hnlt
            have : ¬ minIdx rest < b₀ := by
              intro hc
              exact hnlt (by rw [hminc]; exact lt_of_le_of_lt (min_le_right _ _) hc)
            simpa [List.foldl, hstep] using h3 this
          · have : unknownTypes (d :: rest) = unknownTypes rest := by
              simp [unknownTypes, hp]
            simp only [List.foldl, hstep, this]
            exact h4

-- ### AM3: candidate filtering, refinement and prioritization

/-- `all_candidate_sources`: association list from edge index to its
detection list, in dict insertion order. -/
abbrev CandMap : Type := List (ℕ × List Detection)

/-- `priority_resolved_edges` (lines 268-291): each edge with a non-empty
detection list is mapped to its winning `(type, metric)`. -/
def priority_resolved_edges (sources : CandMap) : List (ℕ × Detection) :=
  sources.filterMap fun p =>
    (resolveDetections p.2).map fun r => (p.1, r.1)

/-- All unknown-type warnings printed during priority resolution, in
edge-iteration order. -/
def am3_warnings (sources : CandMap) : List String :=
  sources.foldl
    (fun acc p =>
      match resolveDetections p.2 with
      | none => acc
      | some r => acc ++ r.2) []

/-- The explicit ("BLENDER_*" / UV) winning types that are passed straight
through by the selection loop (line 325). -/
def EXPLICIT_KEEP_TYPES : List String :=
  [TYPE_BLENDER_SEAM, TYPE_UV_SEAM_BOUNDARY, TYPE_BLENDER_SHARP,
   TYPE_BLENDER_CREASE, TYPE_BLENDER_BEVEL]

/-- The geometry-derived winning types (line 327). -/
def GEOMETRIC_TYPES : List String := [TYPE_ANGLE_SHARP, TYPE_CURVATURE_SHARP]

/-- Selection loop of `am3_filter_refine_prioritize` (lines 324-331):
explicit winners are kept; geometric winners are, in the source's stub,
also added directly to `final_selected_edges` ("For STUB: add them directly
for now", line 329-331) — chain formation and `min_feature_length`
filtering are not implemented.  The dead local
`geometric_candidates_for_chaining` is not modelled. -/
def am3_select (resolved : List (ℕ × Detection)) : Finset ℕ :=
  resolved.foldl
    (fun s p =>
      if EXPLICIT_KEEP_TYPES.contains p.2.1 then insert p.1 s
      else if GEOMETRIC_TYPES.contains p.2.1 then insert p.1 s
      else s) ∅

/-- `am3_filter_refine_prioritize` (lines 253-339).  `bm` and
`min_feature_length` are accepted but — beyond the initial guard — unused
by the source's stub.  Returns the final selected edge set together with
the unknown-type warnings. -/
def am3_filter_refine_prioritize (bm : BMesh) (all_candidate_sources : CandMap)
    (min_feature_length : ℕ) : Finset ℕ × List String :=
  if all_candidate_sources.isEmpty then (∅, [])
  else (am3_select (priority_resolved_edges all_candidate_sources),
        am3_warnings all_candidate_sources)

-- ### AM1 / AM2: preparation and the four detectors

/-- `am1_prepare_bmesh_data` (lines 34-84): lookup tables and normal
updates are modelled as no-ops (normals are stored up to date in `BMFace`);
the `try` only guards host-API exceptions, so in the embedding the
preparation always succeeds. -/
def am1_prepare_bmesh_data (bm : BMesh) : Bool :=
  true

/-- Indices (from `start`) of the edges satisfying `p`, in edge-iteration
order: the shape shared by every per-edge scan in AM2. -/
def edgeIndicesWhere (p : BMEdge → Bool) : ℕ → List BMEdge → List ℕ
  | _, [] => []
  | i, e :: rest =>
      (if p e then [i] else []) ++ edgeIndicesWhere p (i + 1) rest

/-- Per-edge test of `am2a_dihedral_angle_analysis` (lines 98-105): exactly
two linked faces and face-normal angle strictly above the threshold.
`angle` stands for the external `mathutils.Vector.angle`. -/
def am2aCheck (angle : Vec3 → Vec3 → ℚ) (primary_detection_angle_rad : ℚ)
    (e : BMEdge) : Bool :=
  match e.link_faces with
  | [face1, face2] =>
      decide (angle face1.normal face2.normal > primary_detection_angle_rad)
  | _ => false

/-- `am2a_dihedral_angle_analysis` (lines 89-106). -/
def am2a_dihedral_angle_analysis (angle : Vec3 → Vec3 → ℚ) (bm : BMesh)
    (primary_detection_angle_rad : ℚ) : List ℕ :=
  if bm.edges.isEmpty then []
  else edgeIndicesWhere (am2aCheck angle primary_detection_angle_rad) 0 bm.edges

/-- `am2b_existing_blender_data_scan` (lines 108-144): one pass over the
edges filling four per-type sets, returned as the dict's insertion-order
association list. -/
def am2b_existing_blender_data_scan (bm : BMesh)
    (use_sharps use_creases : Bool) (min_crease_val : ℚ)
    (use_seams use_bevels : Bool) (min_bevel_val : ℚ) :
    List (String × List ℕ) :=
  if bm.edges.isEmpty then
    [(TYPE_BLENDER_SHARP, []), (TYPE_BLENDER_CREASE, []),
     (TYPE_BLENDER_SEAM, []), (TYPE_BLENDER_BEVEL, [])]
  else
    [(TYPE_BLENDER_SHARP,
      edgeIndicesWhere
        (fun e => use_sharps && (!e.smooth || e.use_edge_sharp)) 0 bm.edges),
     (TYPE_BLENDER_CREASE,
      edgeIndicesWhere
        (fun e => use_creases && decide (e.crease > min_crease_val)) 0 bm.edges),
     (TYPE_BLENDER_SEAM,
      edgeIndicesWhere (fun e => use_seams && e.seam) 0 bm.edges),
     (TYPE_BLENDER_BEVEL,
      edgeIndicesWhere
        (fun e => use_bevels && decide (e.bevel_weight > min_bevel_val)) 0
        bm.edges)]

/-- `am2c_curvature_based_analysis` (lines 146-192):
"CURRENT_IMPLEMENTATION: Placeholder, returns an empty set." -/
def am2c_curvature_based_analysis (bm : BMesh)
    (curvature_sensitivity : ℚ) : List ℕ :=
  if bm.edges.isEmpty then [] else []

/-- `am2d_uv_island_boundary_analysis` (lines 194-249): returns empty when
no active UV layer exists, and — the stub — also returns empty when one
does ("AM2d UV Island Boundary analysis STUB. No edges will be marked by
this method yet."). -/
def am2d_uv_island_boundary_analysis (bm : BMesh) : List ℕ :=
  if bm.edges.isEmpty then []
  else if !bm.has_uv_layer then []
  else []

-- ### Orchestrator `auto_detect_and_mark_edges`

/-- One step of the `add_candidates` helper (lines 421-425): append the
detection to the edge's list, creating the entry at the end on first
sight (Python dict insertion order). -/
def addCandidate (m : CandMap) (e : ℕ) (d : Detection) : CandMap :=
  match m with
  | [] => [(e, [d])]
  | (e0, ds) :: rest =>
      if e0 = e then (e0, ds ++ [d]) :: rest
      else (e0, ds) :: addCandidate rest e d

/-- `add_candidates(edge_set, det_type, metric)` (lines 421-425). -/
def add_candidates (m : CandMap) (edge_set : List ℕ) (det_type : String)
    (metric : ℚ) : CandMap :=
  edge_set.foldl (fun acc e => addCandidate acc e (det_type, metric)) m

/-- `all_detected_candidates_map` as built by `auto_detect_and_mark_edges`
(lines 418-460): dihedral-angle candidates with the threshold angle as
metric, the four existing-data sets with the default metric `1.0`, then —
if enabled — curvature candidates with the sensitivity as metric and UV
candidates with the default metric `1.0`. -/
def all_detected_candidates_map (angle : Vec3 → Vec3 → ℚ) (bm : BMesh)
    (settings : EvolverAutoSharpSettings) : CandMap :=
  let m1 := add_candidates []
    (am2a_dihedral_angle_analysis angle bm settings.auto_sharp_primary_angle)
    TYPE_ANGLE_SHARP settings.auto_sharp_primary_angle
  let existing_data_map := am2b_existing_blender_data_scan bm
    settings.auto_sharp_use_existing_sharps
    settings.auto_sharp_use_existing_creases settings.auto_sharp_min_crease_value
    settings.auto_sharp_use_existing_seams
    settings.auto_sharp_use_bevel_weights settings.auto_sharp_min_bevel_weight
  let m2 := existing_data_map.foldl
    (fun acc p => add_candidates acc p.2 p.1 1) m1
  let m3 :=
    if settings.auto_sharp_use_curvature then
      add_candidates m2
        (am2c_curvature_based_analysis bm settings.auto_sharp_curvature_sensitivity)
        TYPE_CURVATURE_SHARP settings.auto_sharp_curvature_sensitivity
    else m2
  let m4 :=
    if settings.auto_sharp_preserve_uv_boundaries then
      add_candidates m3 (am2d_uv_island_boundary_analysis bm)
        TYPE_UV_SEAM_BOUNDARY 1
    else m3
  m4

/-- `auto_detect_and_mark_edges` (lines 392-476): the main pass.  Returns
the final selected edge set (`∅` on the early-out paths). -/
def auto_detect_and_mark_edges (angle : Vec3 → Vec3 → ℚ) (bm : BMesh)
    (settings : EvolverAutoSharpSettings) : Finset ℕ :=
  if !am1_prepare_bmesh_data bm then ∅
  else
    let m := all_detected_candidates_map angle bm settings
    if m.isEmpty then ∅
    else
      let final_edges_to_mark :=
        (am3_filter_refine_prioritize bm m
          settings.auto_sharp_min_feature_length).1
      if final_edges_to_mark = ∅ then ∅ else final_edges_to_mark

-- ### AM4: applying the sharps

/-- `edge.use_edge_sharp = True` applied to one edge record. -/
def markSharp (e : BMEdge) : BMEdge :=
  { e with use_edge_sharp := true }

/-- Whether index `i` refers to a valid edge of `bm` (the
`isinstance(edge, bmesh.types.BMEdge) and edge.is_valid` guard: every
element of the embedded set is an edge record, so only validity remains;
an out-of-range index acts like an invalidated reference). -/
def validIn (bm : BMesh) (i : ℕ) : Bool :=
  match bm.edges.get? i with
  | some e => e.is_valid
  | none => false

/-- One iteration of the marking loop of `am4_apply_sharps_to_bmesh`
(lines 372-387): a valid edge reference gets `use_edge_sharp = True` and is
counted; an invalid one is skipped (with a warning). -/
def am4Step (acc : BMesh × ℕ) (i : ℕ) : BMesh × ℕ :=
  match acc.1.edges.get? i with
  | some e =>
      if e.is_valid then
        ({ acc.1 with edges := acc.1.edges.set i (markSharp e) }, acc.2 + 1)
      else (acc.1, acc.2)
  | none => (acc.1, acc.2)

/-- `am4_apply_sharps_to_bmesh` (lines 343-388): marks every valid selected
edge sharp and counts it; invalid references are skipped with a warning.
`auto_sharp_settings` is accepted but unused by the source.  Returns the
updated mesh and `marked_count`. -/
def am4_apply_sharps_to_bmesh (bm : BMesh) (selected_sharp_edges : List ℕ)
    (auto_sharp_settings : EvolverAutoSharpSettings) : BMesh × ℕ :=
  if selected_sharp_edges.isEmpty then (bm, 0)
  else selected_sharp_edges.foldl am4Step (bm, 0)

-- ### Helper lemmas

theorem contains_iff_mem (l : List String) (t : String) :
    l.contains t = true ↔ t ∈ l := by
  induction l with
  | nil => simp
  | cons s rest ih =>
      simp [List.contains, List.elem_cons]

theorem mem_edgeIndicesWhere (p : BMEdge → Bool) :
    ∀ (l : List BMEdge) (i j : ℕ),
      j ∈ edgeIndicesWhere p i l ↔
        ∃ k e, l.get? k = some e ∧ j = i + k ∧ p e = true := by
  intro l
  induction l with
  | nil => intro i j; simp [edgeIndicesWhere]
  | cons e0 rest ih =>
      intro i j
      constructor
      · intro h
        rw [edgeIndicesWhere, List.mem_append] at h
        rcases h with h | h
        · by_cases hp : p e0
          · simp [hp] at h
            exact ⟨0, e0, by simp, by omega, hp⟩
          · simp [hp] at h
        · obtain ⟨k, e, hk, hj, hpe⟩ := (ih (i + 1) j).mp h
          exact ⟨k + 1, e, by simpa using hk, by omega, hpe⟩
      · rintro ⟨k, e, hk, rfl, hpe⟩
        rw [edgeIndicesWhere, List.mem_append]
        match k, hk with
        | 0, hk =>
            left
            simp at hk
            subst hk
            simp [hpe]
        | k + 1, hk =>
            right
            refine (ih (i + 1) (i + (k + 1))).mpr ⟨k, e, by simpa using hk, by omega, hpe⟩

theorem mem_edgeIndicesWhere_zero (p : BMEdge → Bool) (l : List BMEdge) (j : ℕ) :
    j ∈ edgeIndicesWhere p 0 l ↔ ∃ e, l.get? j = some e ∧ p e = true := by
  rw [mem_edgeIndicesWhere]
  constructor
  · rintro ⟨k, e, hk, rfl, hpe⟩
    exact ⟨e, by simpa using hk, hpe⟩
  · rintro ⟨e, hj, hpe⟩
    exact ⟨j, e, hj, by omega, hpe⟩

theorem am3_select_step_init {s : Finset ℕ} {e : ℕ} (p : ℕ × Detection)
    (h : e ∈ s) :
    e ∈ (if EXPLICIT_KEEP_TYPES.contains p.2.1 then insert p.1 s
         else if GEOMETRIC_TYPES.contains p.2.1 then insert p.1 s
         else s) := by
  by_cases h1 : EXPLICIT_KEEP_TYPES.contains p.2.1 = true
  · rw [if_pos h1]; exact Finset.mem_insert_of_mem h
  · rw [if_neg h1]
    by_cases h2 : GEOMETRIC_TYPES.contains p.2.1 = true
    · rw [if_pos h2]; exact Finset.mem_insert_of_mem h
    · rw [if_neg h2]; exact h

theorem mem_am3_select_init (resolved : List (ℕ × Detection)) :
    ∀ (s : Finset ℕ) (e : ℕ), e ∈ s →
      e ∈ resolved.foldl
        (fun s p =>
          if EXPLICIT_KEEP_TYPES.contains p.2.1 then insert p.1 s
          else if GEOMETRIC_TYPES.contains p.2.1 then insert p.1 s
          else s) s := by
  induction resolved with
  | nil => intro s e h; simpa using h
  | cons p rest ih =>
      intro s e h
      simp only [List.foldl]
      exact ih _ e (am3_select_step_init p h)

theorem mem_am3_select_fold (resolved : List (ℕ × Detection)) :
    ∀ (s : Finset ℕ) (e : ℕ) (d : Detection), (e, d) ∈ resolved →
      d.1 ∈ EXPLICIT_KEEP_TYPES ∨ d.1 ∈ GEOMETRIC_TYPES →
      e ∈ resolved.foldl
        (fun s p =>
          if EXPLICIT_KEEP_TYPES.contains p.2.1 then insert p.1 s
          else if GEOMETRIC_TYPES.contains p.2.1 then insert p.1 s
          else s) s := by
  induction resolved with
  | nil => intro s e d h; simp at h
  | cons p rest ih =>
      intro s e d h ht
      simp only [List.foldl]
      rcases List.mem_cons.mp h with h | h
      · apply mem_am3_select_init
        subst h
        rcases ht with ht | ht
        · rw [if_pos ((contains_iff_mem _ _).mpr ht)]
          exact Finset.mem_insert_self _ _
        · by_cases h1 : EXPLICIT_KEEP_TYPES.contains d.1 = true
          · rw [if_pos h1]
            exact Finset.mem_insert_self _ _
          · rw [if_neg h1, if_pos ((contains_iff_mem _ _).mpr ht)]
            exact Finset.mem_insert_self _ _
      · exact ih _ e d h ht

/-- Every resolved edge whose winning type is explicit or geometric ends up
in the selected set. -/
theorem mem_am3_select {resolved : List (ℕ × Detection)} {e : ℕ} {d : Detection}
    (h : (e, d) ∈ resolved)
    (ht : d.1 ∈ EXPLICIT_KEEP_TYPES ∨ d.1 ∈ GEOMETRIC_TYPES) :
    e ∈ am3_select resolved :=
  mem_am3_select_fold resolved ∅ e d h ht

/-- The resolved entry produced by an edge of the candidate map. -/
theorem mem_priority_resolved_edges {sources : CandMap} {e : ℕ}
    {dets : List Detection} {w : Detection} {ws : List String}
    (hsrc : (e, dets) ∈ sources)
    (hres : resolveDetections dets = some (w, ws)) :
    (e, w) ∈ priority_resolved_edges sources := by
  rw [priority_resolved_edges, List.mem_filterMap]
  exact ⟨(e, dets), hsrc, by rw [hres]; rfl⟩

theorem am3_warnings_init (sources : CandMap) :
    ∀ (acc : List String) (x : String), x ∈ acc →
      x ∈ sources.foldl
        (fun acc p =>
          match resolveDetections p.2 with
          | none => acc
          | some r => acc ++ r.2) acc := by
  induction sources with
  | nil => intro acc x h; simpa using h
  | cons p rest ih =>
      intro acc x h
      simp only [List.foldl]
      apply ih
      rcases hres : resolveDetections p.2 with _ | r
      · simpa using h
      · simp [List.mem_append, h]

theorem mem_am3_warnings_fold (sources : CandMap) :
    ∀ (acc : List String) (e : ℕ) (dets : List Detection) (w : Detection)
      (ws : List String) (x : String), (e, dets) ∈ sources →
      resolveDetections dets = some (w, ws) → x ∈ ws →
      x ∈ sources.foldl
        (fun acc p =>
          match resolveDetections p.2 with
          | none => acc
          | some r => acc ++ r.2) acc := by
  induction sources with
  | nil => intro acc e dets w ws x h; simp at h
  | cons p rest ih =>
      intro acc e dets w ws x hsrc hres hx
      simp only [List.foldl]
      rcases List.mem_cons.mp hsrc with h | h
      · apply am3_warnings_init
        have hp2 : p.2 = dets := by rw [← h]
        rw [hp2, hres]
        simp [List.mem_append, hx]
      · exact ih _ e dets w ws x h hres hx

/-- Warnings of any one edge's resolution appear among the pass warnings. -/
theorem mem_am3_warnings {sources : CandMap} {e : ℕ} {dets : List Detection}
    {w : Detection} {ws : List String} {x : String}
    (hsrc : (e, dets) ∈ sources)
    (hres : resolveDetections dets = some (w, ws)) (hx : x ∈ ws) :
    x ∈ am3_warnings sources :=
  mem_am3_warnings_fold sources [] e dets w ws x hsrc hres hx

-- ### Resolver characterisation helpers

theorem resolveDetections_cons (d0 : Detection) (rest : List Detection) :
    resolveDetections (d0 :: rest) =
      some (((d0 :: rest).foldl resolveStep (d0, (⊤ : WithTop ℕ), [])).1,
            ((d0 :: rest).foldl resolveStep (d0, (⊤ : WithTop ℕ), [])).2.2) := rfl

/-- For a non-empty detection list, the resolver returns the first detection
attaining the least priority index (when one is recognised), and the
warnings are exactly the unrecognised types. -/
theorem resolveDetections_spec (d0 : Detection) (rest : List Detection) :
    ∃ w, resolveDetections (d0 :: rest) = some (w, unknownTypes (d0 :: rest)) ∧
      (minIdx (d0 :: rest) < ⊤ → w ∈ d0 :: rest ∧ idxE w = minIdx (d0 :: rest)) ∧
      (¬ minIdx (d0 :: rest) < ⊤ → w = d0) := by
  obtain ⟨h1, h2, h3, h4⟩ := resolveFold_spec (d0 :: rest) d0 ⊤ []
  refine ⟨((d0 :: rest).foldl resolveStep (d0, (⊤ : WithTop ℕ), [])).1, ?_, h2, h3⟩
  rw [resolveDetections_cons, h4]
  simp

theorem minIdx_lt_top_of_mem {d : Detection} {dets : List Detection}
    (hd : d ∈ dets) (h : (priorityIndex d.1).isSome = true) :
    minIdx dets < ⊤ :=
  lt_of_le_of_lt (minIdx_le hd) (idxE_lt_top_of_isSome h)

theorem minIdx_perm {l₁ l₂ : List Detection} (h : l₁.Perm l₂) :
    minIdx l₁ = minIdx l₂ := by
  induction h with
  | nil => rfl
  | cons d _ ih => rw [minIdx_cons, minIdx_cons, ih]
  | swap d₁ d₂ l =>
      rw [minIdx_cons, minIdx_cons, minIdx_cons, minIdx_cons, min_left_comm]
  | trans _ _ ih₁ ih₂ => rw [ih₁, ih₂]

/-- When every type is recognised, the winner's type is determined by the
least priority index alone. -/
theorem resolveDetections_winner_type {dets : List Detection}
    (hne : dets ≠ [])
    (hrec : ∀ d ∈ dets, (priorityIndex d.1).isSome = true) :
    ∃ (w : Detection) (ws : List String) (n : ℕ),
      resolveDetections dets = some (w, ws) ∧
      ((n : WithTop ℕ)) = minIdx dets ∧ PRIORITY_ORDER.get? n = some w.1 := by
  match dets, hne with
  | d0 :: rest, _ =>
      obtain ⟨w, hres, hin, _⟩ := resolveDetections_spec d0 rest
      have hlt : minIdx (d0 :: rest) < ⊤ :=
        minIdx_lt_top_of_mem (List.mem_cons_self d0 rest)
          (hrec d0 (List.mem_cons_self d0 rest))
      obtain ⟨hmem, hval⟩ := hin hlt
      rcases hp : priorityIndex w.1 with _ | n
      · exact absurd (by rw [hp] at *; exact (hrec w hmem)) (by rw [hp]; simp)
      · refine ⟨w, unknownTypes (d0 :: rest), n, hres, ?_, ?_⟩
        · rw [← hval, idxE, hp]
        · exact listIndexOf_get? hp

-- ### Claim C1

/-- C1: for every edge with at least one candidate detection (all of the
closed enumeration), the priority resolver selects a candidate of that
edge's list whose detection type has the least index in `PRIORITY_ORDER`,
and records it as the edge's resolved tag. -/
theorem C1_priority_resolver_selects_lowest_index
    (sources : CandMap) (e : ℕ) (dets : List Detection)
    (hsrc : (e, dets) ∈ sources) (hne : dets ≠ [])
    (hrec : ∀ d ∈ dets, (priorityIndex d.1).isSome = true) :
    ∃ w ws, resolveDetections dets = some (w, ws) ∧
      (e, w) ∈ priority_resolved_edges sources ∧ w ∈ dets ∧
      ∀ d ∈ dets, idxE w ≤ idxE d := by
  match dets, hne with
  | d0 :: rest, _ =>
      obtain ⟨w, hres, hin, _⟩ := resolveDetections_spec d0 rest
      have hlt : minIdx (d0 :: rest) < ⊤ :=
        minIdx_lt_top_of_mem (List.mem_cons_self d0 rest)
          (hrec d0 (List.mem_cons_self d0 rest))
      obtain ⟨hmem, hval⟩ := hin hlt
      refine ⟨w, unknownTypes (d0 :: rest), hres,
        mem_priority_resolved_edges hsrc hres, hmem, ?_⟩
      intro d hd
      rw [hval]
      exact minIdx_le hd

-- ### Claim C5

/-- C5: the full detection pass is deterministic — two runs on the same
mesh and settings give the same resolved edge set — and the resolved tag
chosen for an edge does not depend on the order of the edge's candidate
list (hence not on detector execution order), for candidates of the closed
type enumeration. -/
theorem C5_determinism_and_order_independence :
    (∀ (angle : Vec3 → Vec3 → ℚ) (bm : BMesh)
        (settings : EvolverAutoSharpSettings),
      auto_detect_and_mark_edges angle bm settings =
        auto_detect_and_mark_edges angle bm settings) ∧
    (∀ dets₁ dets₂ : List Detection, dets₁.Perm dets₂ →
      (∀ d ∈ dets₁, (priorityIndex d.1).isSome = true) →
      (resolveDetections dets₁).map (fun r => r.1.1) =
        (resolveDetections dets₂).map (fun r => r.1.1)) := by
  refine ⟨fun _ _ _ => rfl, ?_⟩
  intro dets₁ dets₂ hperm hrec
  match dets₁, dets₂, hperm.length_eq with
  | [], [], _ => rfl
  | d₁ :: r₁, d₂ :: r₂, _ =>
      have hrec₂ : ∀ d ∈ d₂ :: r₂, (priorityIndex d.1).isSome = true :=
        fun d hd => hrec d (hperm.mem_iff.mpr hd)
      obtain ⟨w₁, ws₁, n₁, hres₁, hn₁, hget₁⟩ :=
        resolveDetections_winner_type (List.cons_ne_nil d₁ r₁) hrec
      obtain ⟨w₂, ws₂, n₂, hres₂, hn₂, hget₂⟩ :=
        resolveDetections_winner_type (List.cons_ne_nil d₂ r₂) hrec₂
      have hmin : minIdx (d₁ :: r₁) = minIdx (d₂ :: r₂) := minIdx_perm hperm
      have hn : n₁ = n₂ := by
        have : ((n₁ : WithTop ℕ)) = ((n₂ : WithTop ℕ)) := by
          rw [hn₁, hn₂, hmin]
        exact_mod_cast this
      have htype : w₁.1 = w₂.1 := by
        rw [hn] at hget₁
        rw [hget₁] at hget₂
        exact Option.some_injective _ hget₂
      rw [hres₁, hres₂]
      simp [htype]

-- ### Claim C6

/-- C6: a candidate with a detection type outside `PRIORITY_ORDER` makes
the resolver report a warning (also surfaced by
`am3_filter_refine_prioritize`), the edge is still resolved, and the
unknown candidate is treated as lowest priority: whenever the edge also
has a recognised candidate, the winning tag is a recognised one.  The
resolver is total, so the pass never fails. -/
theorem C6_unknown_type_warned_edge_still_resolved
    (bm : BMesh) (sources : CandMap) (min_feature_length : ℕ)
    (e : ℕ) (dets : List Detection) (d : Detection)
    (hsrc : (e, dets) ∈ sources) (hd : d ∈ dets)
    (hunk : priorityIndex d.1 = none) :
    (∃ w ws, resolveDetections dets = some (w, ws) ∧ d.1 ∈ ws) ∧
    (∃ w, (e, w) ∈ priority_resolved_edges sources) ∧
    d.1 ∈ (am3_filter_refine_prioritize bm sources min_feature_length).2 ∧
    (∀ dr ∈ dets, (priorityIndex dr.1).isSome = true →
      ∀ w ws, resolveDetections dets = some (w, ws) →
        (priorityIndex w.1).isSome = true) := by
  match dets, List.ne_nil_of_mem hd with
  | d0 :: rest, _ =>
      obtain ⟨w, hres, hin, _⟩ := resolveDetections_spec d0 rest
      have hwarn : d.1 ∈ unknownTypes (d0 :: rest) := by
        rw [unknownTypes, List.mem_filterMap]
        exact ⟨d, hd, by rw [hunk]⟩
      have hne : sources.isEmpty = false := by
        cases sources with
        | nil => simp at hsrc
        | cons p rest2 => rfl
      refine ⟨⟨w, unknownTypes (d0 :: rest), hres, hwarn⟩,
        ⟨w, mem_priority_resolved_edges hsrc hres⟩, ?_, ?_⟩
      · rw [am3_filter_refine_prioritize, hne]
        simp only [Bool.false_eq_true, if_false]
        exact mem_am3_warnings hsrc hres hwarn
      · intro dr hdr hdrsome wr wsr hresr
        have hw : wr = w := by
          rw [hres] at hresr
          exact congrArg Prod.fst (Option.some_injective _ hresr.symm)
        obtain ⟨_, hval⟩ := hin (minIdx_lt_top_of_mem hdr hdrsome)
        rw [hw]
        exact idxE_isSome_of_lt_top
          (by rw [hval]; exact minIdx_lt_top_of_mem hdr hdrsome)

-- ### Shared: resolved edges with kept winning types are selected

theorem am3_keeps_resolved {bm : BMesh} {sources : CandMap}
    {min_feature_length : ℕ} {e : ℕ} {dets : List Detection} {w : Detection}
    {ws : List String} (hsrc : (e, dets) ∈ sources)
    (hres : resolveDetections dets = some (w, ws))
    (ht : w.1 ∈ EXPLICIT_KEEP_TYPES ∨ w.1 ∈ GEOMETRIC_TYPES) :
    e ∈ (am3_filter_refine_prioritize bm sources min_feature_length).1 := by
  have hne : sources.isEmpty = false := by
    cases sources with
    | nil => simp at hsrc
    | cons p rest => rfl
  rw [am3_filter_refine_prioritize, hne]
  simp only [Bool.false_eq_true, if_false]
  exact mem_am3_select (mem_priority_resolved_edges hsrc hres) ht

-- ### Claim C2 (corrected)

/-- C2 counterexample input: two `ANGLE_SHARP`-resolved edges sharing
vertex 1 — an isolated 2-edge geometric chain. -/
def C2_bm : BMesh :=
  { edges := [{ verts := (0, 1), link_faces := [] },
              { verts := (1, 2), link_faces := [] }] }

/-- C2 counterexample candidate map: both edges carry a single
`ANGLE_SHARP` detection. -/
def C2_sources : CandMap :=
  [(0, [(TYPE_ANGLE_SHARP, 1)]), (1, [(TYPE_ANGLE_SHARP, 1)])]

/-- C2 counterexample: with minimum feature length 3, the 2-edge isolated
`ANGLE_SHARP` chain (edges 0 and 1, sharing vertex 1, the only candidate
edges) is NOT discarded — both edges are in the final selected set, contrary
to the claim that such a chain contributes no edges. -/
theorem C2_counterexample :
    (resolveDetections [(TYPE_ANGLE_SHARP, (1 : ℚ))]).map (fun r => r.1.1) =
      some TYPE_ANGLE_SHARP ∧
    C2_sources.length = 2 ∧
    (C2_bm.edges.get? 0).map (fun e => e.verts) = some (0, 1) ∧
    (C2_bm.edges.get? 1).map (fun e => e.verts) = some (1, 2) ∧
    0 ∈ (am3_filter_refine_prioritize C2_bm C2_sources 3).1 ∧
    1 ∈ (am3_filter_refine_prioritize C2_bm C2_sources 3).1 := by
  decide

/-- C2 amended: the source's chain filter is a pass-through stub — every
edge resolved to `ANGLE_SHARP` or `CURVATURE_SHARP` is kept in the final
selected set whatever the minimum feature length, so no too-short chain is
ever discarded (and chains of length ≥ the minimum are kept a fortiori). -/
theorem C2_chain_filter_is_pass_through
    (bm : BMesh) (sources : CandMap) (min_feature_length : ℕ)
    (e : ℕ) (dets : List Detection) (t : String) (q : ℚ) (ws : List String)
    (hsrc : (e, dets) ∈ sources)
    (hres : resolveDetections dets = some ((t, q), ws))
    (ht : t = TYPE_ANGLE_SHARP ∨ t = TYPE_CURVATURE_SHARP) :
    e ∈ (am3_filter_refine_prioritize bm sources min_feature_length).1 := by
  apply am3_keeps_resolved hsrc hres
  right
  rcases ht with ht | ht <;> rw [ht] <;> simp [GEOMETRIC_TYPES]

/-- Witness for the amended C2 at a concrete input. -/
theorem C2_chain_filter_is_pass_through_witness :
    0 ∈ (am3_filter_refine_prioritize C2_bm C2_sources 3).1 :=
  C2_chain_filter_is_pass_through C2_bm C2_sources 3 0
    [(TYPE_ANGLE_SHARP, 1)] TYPE_ANGLE_SHARP 1 []
    (by decide) (by decide) (Or.inl rfl)

-- ### Claim C3

/-- Whether edge `i` of `bm` is incident to vertex `v`. -/
def edgeIncident (bm : BMesh) (i v : ℕ) : Bool :=
  match bm.edges.get? i with
  | some e => (e.verts.1 == v) || (e.verts.2 == v)
  | none => false

/-- Whether edges `i` and `j` of `bm` share a vertex. -/
def edgesShareVertex (bm : BMesh) (i j : ℕ) : Bool :=
  match bm.edges.get? i, bm.edges.get? j with
  | some e, some f =>
      (e.verts.1 == f.verts.1) || (e.verts.1 == f.verts.2) ||
      (e.verts.2 == f.verts.1) || (e.verts.2 == f.verts.2)
  | _, _ => false

/-- Number of resolved sharp edges (winning type explicit or geometric)
other than `excluded` incident to vertex `v`: the junction measure. -/
def resolvedSharpCountAt (bm : BMesh) (sources : CandMap) (v excluded : ℕ) :
    ℕ :=
  ((priority_resolved_edges sources).filter
    (fun p => (!(p.1 == excluded)) && edgeIncident bm p.1 v &&
      (EXPLICIT_KEEP_TYPES.contains p.2.1 ||
       GEOMETRIC_TYPES.contains p.2.1))).length

/-- C3: an edge forming a 1-edge `ANGLE_SHARP` chain (no other resolved
`ANGLE_SHARP` edge shares a vertex with it) that is incident to a junction
vertex — a vertex with 3 or more other resolved sharp edges — is retained
in the final selected set for every minimum feature length, in particular
when the chain is shorter than the minimum. -/
theorem C3_junction_incident_edge_retained
    (bm : BMesh) (sources : CandMap) (min_feature_length i v : ℕ)
    (dets : List Detection) (q : ℚ) (ws : List String)
    (hsrc : (i, dets) ∈ sources)
    (hres : resolveDetections dets = some ((TYPE_ANGLE_SHARP, q), ws))
    (hiso : ∀ p ∈ priority_resolved_edges sources, p.1 ≠ i →
      p.2.1 = TYPE_ANGLE_SHARP → edgesShareVertex bm i p.1 = false)
    (hshort : 1 < min_feature_length)
    (hjunction : 3 ≤ resolvedSharpCountAt bm sources v i)
    (hinc : edgeIncident bm i v = true) :
    i ∈ (am3_filter_refine_prioritize bm sources min_feature_length).1 := by
  apply am3_keeps_resolved hsrc hres
  right
  simp [GEOMETRIC_TYPES]

/-- C3 witness mesh: edge 0 is the 1-edge `ANGLE_SHARP` chain; edges 1-3
are seam-resolved sharp edges making vertex 0 a junction. -/
def C3_bm : BMesh :=
  { edges := [{ verts := (0, 1), link_faces := [] },
              { verts := (0, 2), link_faces := [] },
              { verts := (0, 3), link_faces := [] },
              { verts := (0, 4), link_faces := [] }] }

/-- C3 witness candidate map. -/
def C3_sources : CandMap :=
  [(0, [(TYPE_ANGLE_SHARP, 1)]),
   (1, [(TYPE_BLENDER_SEAM, 1)]),
   (2, [(TYPE_BLENDER_SEAM, 1)]),
   (3, [(TYPE_BLENDER_SEAM, 1)])]

/-- C3 witness: 1-edge `ANGLE_SHARP` chain at a 3-way junction, minimum
feature length 5 — the edge is kept. -/
theorem C3_junction_incident_edge_retained_witness :
    0 ∈ (am3_filter_refine_prioritize C3_bm C3_sources 5).1 :=
  C3_junction_incident_edge_retained C3_bm C3_sources 5 0 0
    [(TYPE_ANGLE_SHARP, 1)] 1 []
    (by decide) (by decide) (by decide) (by decide) (by decide) (by decide)

-- ### Claim C4

theorem am2aCheck_iff (angle : Vec3 → Vec3 → ℚ) (θ : ℚ) (e : BMEdge) :
    am2aCheck angle θ e = true ↔
      ∃ face1 face2, e.link_faces = [face1, face2] ∧
        angle face1.normal face2.normal > θ := by
  rcases hlf : e.link_faces with _ | ⟨f1, _ | ⟨f2, _ | ⟨f3, rest⟩⟩⟩ <;>
    simp [am2aCheck, hlf]
  constructor
  · intro h
    exact ⟨f1, f2, ⟨rfl, rfl⟩, h⟩
  · rintro ⟨face1, face2, ⟨rfl, rfl⟩, h⟩
    exact h

/-- C4: the dihedral-angle detector emits an edge exactly when the edge has
exactly two linked faces and the angle between their normals is strictly
greater than the threshold; boundary edges (one face) and non-manifold
edges (more than two faces) are never emitted.  The detector is a pure
function of the mesh and threshold. -/
theorem C4_dihedral_detector_iff (angle : Vec3 → Vec3 → ℚ) (bm : BMesh)
    (θ : ℚ) (i : ℕ) :
    i ∈ am2a_dihedral_angle_analysis angle bm θ ↔
      ∃ e face1 face2, bm.edges.get? i = some e ∧
        e.link_faces = [face1, face2] ∧
        angle face1.normal face2.normal > θ := by
  rw [am2a_dihedral_angle_analysis]
  by_cases hemp : bm.edges.isEmpty
  · rw [if_pos hemp]
    have : bm.edges = [] := by
      cases h : bm.edges with
      | nil => rfl
      | cons a l => rw [h] at hemp; simp at hemp
    simp [this]
  · rw [if_neg hemp, mem_edgeIndicesWhere_zero]
    constructor
    · rintro ⟨e, hi, hch⟩
      obtain ⟨f1, f2, hlf, hgt⟩ := (am2aCheck_iff angle θ e).mp hch
      exact ⟨e, f1, f2, hi, hlf, hgt⟩
    · rintro ⟨e, f1, f2, hi, hlf, hgt⟩
      exact ⟨e, hi, (am2aCheck_iff angle θ e).mpr ⟨f1, f2, hlf, hgt⟩⟩

/-- A concrete stand-in for `mathutils.Vector.angle` used in witnesses:
every pair of normals subtends "angle" 2. -/
def angleTest : Vec3 → Vec3 → ℚ := fun _ _ => 2

/-- C4 witness mesh: edge 0 interior (2 faces), edge 1 boundary (1 face),
edge 2 non-manifold (3 faces). -/
def C4_bm : BMesh :=
  { edges := [{ verts := (0, 1),
                link_faces := [⟨(1, 0, 0)⟩, ⟨(0, 1, 0)⟩] },
              { verts := (1, 2), link_faces := [⟨(1, 0, 0)⟩] },
              { verts := (2, 3),
                link_faces := [⟨(1, 0, 0)⟩, ⟨(0, 1, 0)⟩, ⟨(0, 0, 1)⟩] }] }

/-- C4 witness: at threshold 1 (< the test angle 2), the interior edge is
emitted; the boundary and non-manifold edges are not. -/
theorem C4_dihedral_detector_iff_witness :
    0 ∈ am2a_dihedral_angle_analysis angleTest C4_bm 1 ∧
    1 ∉ am2a_dihedral_angle_analysis angleTest C4_bm 1 ∧
    2 ∉ am2a_dihedral_angle_analysis angleTest C4_bm 1 :=
  ⟨(C4_dihedral_detector_iff angleTest C4_bm 1 0).mpr
      ⟨{ verts := (0, 1), link_faces := [⟨(1, 0, 0)⟩, ⟨(0, 1, 0)⟩] },
       ⟨(1, 0, 0)⟩, ⟨(0, 1, 0)⟩, by decide, by decide, by decide⟩,
   by decide, by decide⟩

-- ### Claim C7 (corrected)

theorem mem_addCandidate_provenance :
    ∀ (m : CandMap) (e : ℕ) (d : Detection) (e0 : ℕ) (ds : List Detection),
      (e0, ds) ∈ addCandidate m e d → ∀ x ∈ ds,
        (∃ ds0, (e0, ds0) ∈ m ∧ x ∈ ds0) ∨ x = d := by
  intro m
  induction m with
  | nil =>
      intro e d e0 ds hmem x hx
      simp [addCandidate] at hmem
      rw [hmem.2] at hx
      right
      simpa using hx
  | cons p rest ih =>
      intro e d e0 ds hmem x hx
      rw [addCandidate] at hmem
      by_cases he : p.1 = e
      · rw [if_pos he] at hmem
        rcases List.mem_cons.mp hmem with h | h
        · injection h with h1 h2
          rw [h2] at hx
          rcases List.mem_append.mp hx with h3 | h3
          · left
            refine ⟨p.2, ?_, h3⟩
            rw [h1]
            exact List.mem_cons_self _ _
          · right; simpa using h3
        · left
          exact ⟨ds, List.mem_cons_of_mem _ h, hx⟩
      · rw [if_neg he] at hmem
        rcases List.mem_cons.mp hmem with h | h
        · left
          exact ⟨ds, by rw [h]; exact List.mem_cons_self _ _, hx⟩
        · rcases ih e d e0 ds h x hx with ⟨ds0, hds0, hxds0⟩ | hxd
          · left; exact ⟨ds0, List.mem_cons_of_mem _ hds0, hxds0⟩
          · right; exact hxd

theorem mem_add_candidates_provenance :
    ∀ (es : List ℕ) (m : CandMap) (t : String) (q : ℚ) (e0 : ℕ)
      (ds : List Detection),
      (e0, ds) ∈ add_candidates m es t q → ∀ x ∈ ds,
        (∃ ds0, (e0, ds0) ∈ m ∧ x ∈ ds0) ∨ x = (t, q) := by
  intro es
  induction es with
  | nil =>
      intro m t q e0 ds hmem x hx
      left
      exact ⟨ds, hmem, hx⟩
  | cons e es ih =>
      intro m t q e0 ds hmem x hx
      rcases ih (addCandidate m e (t, q)) t q e0 ds hmem x hx with
        ⟨ds0, hds0, hxds0⟩ | hxd
      · rcases mem_addCandidate_provenance m e (t, q) e0 ds0 hds0 x hxds0 with
          h | h
        · left; exact h
        · right; exact h
      · right; exact hxd

theorem mem_am2b_fold_provenance :
    ∀ (l : List (String × List ℕ)) (m : CandMap) (e0 : ℕ)
      (ds : List Detection),
      (e0, ds) ∈ l.foldl (fun acc p => add_candidates acc p.2 p.1 1) m →
      ∀ x ∈ ds,
        (∃ ds0, (e0, ds0) ∈ m ∧ x ∈ ds0) ∨ ∃ p ∈ l, x = (p.1, (1 : ℚ)) := by
  intro l
  induction l with
  | nil =>
      intro m e0 ds hmem x hx
      left
      exact ⟨ds, hmem, hx⟩
  | cons p rest ih =>
      intro m e0 ds hmem x hx
      rcases ih (add_candidates m p.2 p.1 1) e0 ds hmem x hx with
        ⟨ds0, hds0, hxds0⟩ | ⟨p2, hp2, hxp2⟩
      · rcases mem_add_candidates_provenance p.2 m p.1 1 e0 ds0 hds0 x hxds0 with
          h | h
        · left; exact h
        · right; exact ⟨p, List.mem_cons_self _ _, h⟩
      · right; exact ⟨p2, List.mem_cons_of_mem _ hp2, hxp2⟩

theorem am2b_types (bm : BMesh) (a b : Bool) (c : ℚ) (d e : Bool) (f : ℚ) :
    ∀ p ∈ am2b_existing_blender_data_scan bm a b c d e f,
      p.1 = TYPE_BLENDER_SHARP ∨ p.1 = TYPE_BLENDER_CREASE ∨
      p.1 = TYPE_BLENDER_SEAM ∨ p.1 = TYPE_BLENDER_BEVEL := by
  intro p hp
  rw [am2b_existing_blender_data_scan] at hp
  by_cases hemp : bm.edges.isEmpty
  · rw [if_pos hemp] at hp
    simp only [List.mem_cons, List.not_mem_nil, or_false] at hp
    rcases hp with h | h | h | h <;> rw [h] <;> simp
  · rw [if_neg hemp] at hp
    simp only [List.mem_cons, List.not_mem_nil, or_false] at hp
    rcases hp with h | h | h | h <;> rw [h] <;> simp

/-- C7 amended: every candidate record produced by the pass carries, as
metric, the configured angle threshold for `ANGLE_SHARP` (not the measured
dihedral angle), the constant `1.0` for the four authored types and for
`UV_SEAM_BOUNDARY` (not the authored crease/bevel weight), and the
configured curvature sensitivity for `CURVATURE_SHARP` (no saliency score
is computed). -/
theorem C7_metrics_are_configuration_values
    (angle : Vec3 → Vec3 → ℚ) (bm : BMesh)
    (settings : EvolverAutoSharpSettings) (e : ℕ) (ds : List Detection)
    (t : String) (q : ℚ)
    (hsrc : (e, ds) ∈ all_detected_candidates_map angle bm settings)
    (hm : (t, q) ∈ ds) :
    (t = TYPE_ANGLE_SHARP ∧ q = settings.auto_sharp_primary_angle) ∨
    ((t = TYPE_BLENDER_SHARP ∨ t = TYPE_BLENDER_CREASE ∨
      t = TYPE_BLENDER_SEAM ∨ t = TYPE_BLENDER_BEVEL ∨
      t = TYPE_UV_SEAM_BOUNDARY) ∧ q = 1) ∨
    (t = TYPE_CURVATURE_SHARP ∧
      q = settings.auto_sharp_curvature_sensitivity) := by
  simp only [all_detected_candidates_map] at hsrc
  have huv :
      (∃ ds0, (e, ds0) ∈
        (am2b_existing_blender_data_scan bm
          settings.auto_sharp_use_existing_sharps
          settings.auto_sharp_use_existing_creases
          settings.auto_sharp_min_crease_value
          settings.auto_sharp_use_existing_seams
          settings.auto_sharp_use_bevel_weights
          settings.auto_sharp_min_bevel_weight).foldl
            (fun acc p => add_candidates acc p.2 p.1 1)
            (add_candidates []
              (am2a_dihedral_angle_analysis angle bm
                settings.auto_sharp_primary_angle)
              TYPE_ANGLE_SHARP settings.auto_sharp_primary_angle) ∧
          (t, q) ∈ ds0) ∨
      (t, q) = (TYPE_CURVATURE_SHARP,
        settings.auto_sharp_curvature_sensitivity) ∨
      (t, q) = (TYPE_UV_SEAM_BOUNDARY, (1 : ℚ)) := by
    cases hcu : settings.auto_sharp_use_curvature <;>
      cases hpu : settings.auto_sharp_preserve_uv_boundaries <;>
      simp only [hcu, hpu, Bool.false_eq_true, if_true, if_false] at hsrc
    · exact Or.inl ⟨ds, hsrc, hm⟩
    · rcases mem_add_candidates_provenance _ _ _ _ _ _ hsrc (t, q) hm with
        ⟨ds1, hds1, hm1⟩ | h
      · exact Or.inl ⟨ds1, hds1, hm1⟩
      · exact Or.inr (Or.inr h)
    · rcases mem_add_candidates_provenance _ _ _ _ _ _ hsrc (t, q) hm with
        ⟨ds1, hds1, hm1⟩ | h
      · exact Or.inl ⟨ds1, hds1, hm1⟩
      · exact Or.inr (Or.inl h)
    · rcases mem_add_candidates_provenance _ _ _ _ _ _ hsrc (t, q) hm with
        ⟨ds1, hds1, hm1⟩ | h
      · rcases mem_add_candidates_provenance _ _ _ _ _ _ hds1 (t, q) hm1 with
          ⟨ds2, hds2, hm2⟩ | h
        · exact Or.inl ⟨ds2, hds2, hm2⟩
        · exact Or.inr (Or.inl h)
      · exact Or.inr (Or.inr h)
  rcases huv with ⟨ds0, hds0, hm0⟩ | h | h
  · rcases mem_am2b_fold_provenance _ _ _ _ hds0 (t, q) hm0 with
      ⟨ds1, hds1, hm1⟩ | ⟨p, hp, hxp⟩
    · rcases mem_add_candidates_provenance _ _ _ _ _ _ hds1 (t, q) hm1 with
        ⟨ds2, hds2, _⟩ | h
      · simp [add_candidates] at hds2
      · left
        injection h with h1 h2
        exact ⟨h1, h2⟩
    · right; left
      injection hxp with h1 h2
      refine ⟨?_, h2⟩
      rcases am2b_types bm _ _ _ _ _ _ p hp with h | h | h | h <;>
        rw [h1, h] <;> simp
  · right; right
    injection h with h1 h2
    exact ⟨h1, h2⟩
  · right; left
    injection h with h1 h2
    exact ⟨Or.inr (Or.inr (Or.inr (Or.inr h1))), h2⟩

/-- C7 counterexample mesh: one interior edge with authored crease 0.7. -/
def C7_bm : BMesh :=
  { edges := [{ verts := (0, 1),
                link_faces := [⟨(1, 0, 0)⟩, ⟨(0, 1, 0)⟩],
                crease := mkRat 7 10 }] }

/-- C7 counterexample settings: angle threshold 1 rad, crease detection on
with minimum 0.5, everything else off. -/
def C7_settings : EvolverAutoSharpSettings :=
  { auto_sharp_primary_angle := 1,
    auto_sharp_use_existing_sharps := false,
    auto_sharp_use_existing_creases := true,
    auto_sharp_min_crease_value := mkRat 1 2,
    auto_sharp_use_existing_seams := false,
    auto_sharp_use_bevel_weights := false,
    auto_sharp_min_bevel_weight := 1,
    auto_sharp_use_curvature := false,
    auto_sharp_curvature_sensitivity := 0,
    auto_sharp_preserve_uv_boundaries := false,
    auto_sharp_min_feature_length := 1 }

/-- C7 counterexample: the edge's dihedral angle evaluates to 2 and its
authored crease is 0.7, yet its `ANGLE_SHARP` candidate carries metric 1
(the configured threshold, ≠ the angle 2) and its `BLENDER_CREASE`
candidate carries metric 1 (the default, ≠ the crease 0.7) — refuting the
claim that candidate metrics are the actual dihedral angle and the
authored crease weight. -/
theorem C7_counterexample :
    all_detected_candidates_map angleTest C7_bm C7_settings =
      [(0, [(TYPE_ANGLE_SHARP, 1), (TYPE_BLENDER_CREASE, 1)])] ∧
    angleTest (1, 0, 0) (0, 1, 0) = 2 ∧ (2 : ℚ) ≠ 1 ∧
    (C7_bm.edges.get? 0).map (fun e => e.crease) = some (mkRat 7 10) ∧
    mkRat 7 10 ≠ 1 := by
  decide

/-- Witness for the amended C7 at a concrete input. -/
theorem C7_metrics_are_configuration_values_witness :
    ((TYPE_ANGLE_SHARP = TYPE_ANGLE_SHARP ∧
      (1 : ℚ) = C7_settings.auto_sharp_primary_angle) ∨
    ((TYPE_ANGLE_SHARP = TYPE_BLENDER_SHARP ∨
      TYPE_ANGLE_SHARP = TYPE_BLENDER_CREASE ∨
      TYPE_ANGLE_SHARP = TYPE_BLENDER_SEAM ∨
      TYPE_ANGLE_SHARP = TYPE_BLENDER_BEVEL ∨
      TYPE_ANGLE_SHARP = TYPE_UV_SEAM_BOUNDARY) ∧ (1 : ℚ) = 1) ∨
    (TYPE_ANGLE_SHARP = TYPE_CURVATURE_SHARP ∧
      (1 : ℚ) = C7_settings.auto_sharp_curvature_sensitivity)) :=
  C7_metrics_are_configuration_values angleTest C7_bm C7_settings 0
    [(TYPE_ANGLE_SHARP, 1), (TYPE_BLENDER_CREASE, 1)] TYPE_ANGLE_SHARP 1
    (by decide) (by decide)

-- ### Claim C9 (corrected) — stated before C8, which builds on it

/-- C9 amended: the UV-boundary detector is a stub that returns the empty
candidate set for every mesh — also when a UV layer exists — so no edge,
boundary or otherwise, is ever emitted by it. -/
theorem C9_uv_detector_always_empty (bm : BMesh) :
    am2d_uv_island_boundary_analysis bm = [] := by
  rw [am2d_uv_island_boundary_analysis]
  by_cases h1 : bm.edges.isEmpty
  · rw [if_pos h1]
  · rw [if_neg h1]
    by_cases h2 : !bm.has_uv_layer
    · rw [if_pos h2]
    · rw [if_neg h2]

/-- C9 counterexample mesh: a UV layer exists and edge 0 is a mesh-boundary
edge (exactly one incident face). -/
def C9_bm : BMesh :=
  { edges := [{ verts := (0, 1), link_faces := [⟨(1, 0, 0)⟩] }],
    has_uv_layer := true }

/-- C9 counterexample: the mesh has a UV layer and a boundary edge, yet the
UV-boundary detector does not emit that edge (it emits nothing), contrary
to the claim that every mesh-boundary edge is emitted as a
`UV_SEAM_BOUNDARY` candidate when a UV layer exists. -/
theorem C9_counterexample :
    C9_bm.has_uv_layer = true ∧
    (C9_bm.edges.get? 0).map (fun e => e.link_faces.length) = some 1 ∧
    0 ∉ am2d_uv_island_boundary_analysis C9_bm := by
  decide

-- ### Claim C8

/-- C8: on a mesh with no UV layer the UV-boundary detector returns the
empty candidate set (not an error), and the full detection pass still
completes, returning exactly what it returns when the UV detector is
disabled — the result of the remaining detectors. -/
theorem C8_no_uv_layer_graceful (angle : Vec3 → Vec3 → ℚ) (bm : BMesh)
    (settings : EvolverAutoSharpSettings)
    (hnuv : bm.has_uv_layer = false) :
    am2d_uv_island_boundary_analysis bm = [] ∧
    auto_detect_and_mark_edges angle bm settings =
      auto_detect_and_mark_edges angle bm
        { settings with auto_sharp_preserve_uv_boundaries := false } := by
  refine ⟨C9_uv_detector_always_empty bm, ?_⟩
  have hmap : all_detected_candidates_map angle bm settings =
      all_detected_candidates_map angle bm
        { settings with auto_sharp_preserve_uv_boundaries := false } := by
    simp only [all_detected_candidates_map, C9_uv_detector_always_empty bm,
      add_candidates, List.foldl_nil, Bool.false_eq_true, if_false, ite_self]
  rw [auto_detect_and_mark_edges, auto_detect_and_mark_edges, hmap]

/-- C8 witness mesh: no UV layer, one seam edge. -/
def C8_bm : BMesh :=
  { edges := [{ verts := (0, 1), link_faces := [], seam := true }] }

/-- C8 witness settings: UV preservation requested, seams enabled. -/
def C8_settings : EvolverAutoSharpSettings :=
  { auto_sharp_primary_angle := 1,
    auto_sharp_use_existing_sharps := false,
    auto_sharp_use_existing_creases := false,
    auto_sharp_min_crease_value := mkRat 1 2,
    auto_sharp_use_existing_seams := true,
    auto_sharp_use_bevel_weights := false,
    auto_sharp_min_bevel_weight := 1,
    auto_sharp_use_curvature := false,
    auto_sharp_curvature_sensitivity := 0,
    auto_sharp_preserve_uv_boundaries := true,
    auto_sharp_min_feature_length := 1 }

/-- Witness for C8 at a concrete input. -/
theorem C8_no_uv_layer_graceful_witness :
    am2d_uv_island_boundary_analysis C8_bm = [] ∧
    auto_detect_and_mark_edges angleTest C8_bm C8_settings =
      auto_detect_and_mark_edges angleTest C8_bm
        { C8_settings with auto_sharp_preserve_uv_boundaries := false } :=
  C8_no_uv_layer_graceful angleTest C8_bm C8_settings rfl

-- ### Claim C10

theorem countP_congr_local {l : List ℕ} {p q : ℕ → Bool}
    (h : ∀ a ∈ l, p a = q a) : l.countP p = l.countP q := by
  induction l with
  | nil => rfl
  | cons a rest ih =>
      rw [List.countP_cons, List.countP_cons,
        h a (List.mem_cons_self _ _),
        ih (fun b hb => h b (List.mem_cons_of_mem _ hb))]

theorem markSharp_markSharp (e : BMEdge) :
    markSharp (markSharp e) = markSharp e := rfl

theorem markSharp_is_valid (e : BMEdge) :
    (markSharp e).is_valid = e.is_valid := rfl

theorem validIn_true_iff (bm : BMesh) (j : ℕ) :
    validIn bm j = true ↔
      ∃ e, bm.edges.get? j = some e ∧ e.is_valid = true := by
  rw [validIn]
  rcases hg : bm.edges.get? j with _ | e <;> simp [hg]

theorem BMesh_eq {a b : BMesh} (h1 : a.edges = b.edges)
    (h2 : a.has_uv_layer = b.has_uv_layer) : a = b := by
  cases a
  cases b
  simp only at h1 h2
  rw [h1, h2]

/-- Invariant of the `am4` marking fold: the count grows by the number of
valid selected references, per-edge records change only by `markSharp` on
valid selected indices, and nothing else of the mesh changes. -/
theorem am4_fold_spec (sel : List ℕ) :
    ∀ (bm : BMesh) (c : ℕ),
      ((sel.foldl am4Step (bm, c)).2 = c + sel.countP (validIn bm)) ∧
      (∀ j, (sel.foldl am4Step (bm, c)).1.edges.get? j =
        if j ∈ sel ∧ validIn bm j = true
        then (bm.edges.get? j).map markSharp else bm.edges.get? j) ∧
      ((sel.foldl am4Step (bm, c)).1.has_uv_layer = bm.has_uv_layer) := by
  induction sel with
  | nil =>
      intro bm c
      exact ⟨by simp, fun j => by simp, rfl⟩
  | cons i rest ih =>
      intro bm c
      rcases hg : bm.edges.get? i with _ | e
      · have hg2 : bm.edges[i]? = none := by
          rw [← List.get?_eq_getElem?]; exact hg
        have hv : validIn bm i = false := by rw [validIn, hg]
        have hstep : am4Step (bm, c) i = (bm, c) := by
          simp [am4Step, hg, hg2]
        obtain ⟨h1, h2, h3⟩ := ih bm c
        refine ⟨?_, ?_, ?_⟩
        · rw [List.foldl_cons, hstep, h1, List.countP_cons, hv]
          rfl
        · intro j
          rw [List.foldl_cons, hstep, h2 j]
          by_cases hji : j = i
          · subst hji
            simp [hv]
          · simp [List.mem_cons, hji]
        · rw [List.foldl_cons, hstep]
          exact h3
      · have hg2 : bm.edges[i]? = some e := by
          rw [← List.get?_eq_getElem?]; exact hg
        by_cases hval : e.is_valid = true
        · have hvi : validIn bm i = true := by rw [validIn, hg]; exact hval
          have hstep : am4Step (bm, c) i =
              ({ bm with edges := bm.edges.set i (markSharp e) }, c + 1) := by
            simp [am4Step, hg, hg2, hval]
          set bm2 : BMesh := { bm with edges := bm.edges.set i (markSharp e) }
            with hbm2
          have hget2eq : bm2.edges.get? i = some (markSharp e) := by
            rw [hbm2]
            show (bm.edges.set i (markSharp e)).get? i = _
            rw [List.get?_set_eq, hg]
            rfl
          have hget2ne : ∀ j, j ≠ i → bm2.edges.get? j = bm.edges.get? j := by
            intro j hji
            rw [hbm2]
            exact List.get?_set_ne _ _ (fun h => hji h.symm)
          have hvalid : ∀ j, validIn bm2 j = validIn bm j := by
            intro j
            by_cases hji : j = i
            · subst hji
              rw [validIn, validIn, hget2eq, hg]
              rfl
            · rw [validIn, validIn, hget2ne j hji]
          obtain ⟨h1, h2, h3⟩ := ih bm2 (c + 1)
          refine ⟨?_, ?_, ?_⟩
          · rw [List.foldl_cons, hstep, h1,
              countP_congr_local (fun a _ => hvalid a),
              List.countP_cons, hvi]
            simp only [if_true]
            omega
          · intro j
            rw [List.foldl_cons, hstep, h2 j, hvalid j]
            by_cases hji : j = i
            · subst hji
              by_cases hjr : j ∈ rest
              · rw [if_pos ⟨hjr, hvi⟩,
                  if_pos ⟨List.mem_cons_self _ _, hvi⟩, hget2eq, hg]
                rfl
              · rw [if_neg (fun hc => hjr hc.1),
                  if_pos ⟨List.mem_cons_self _ _, hvi⟩, hget2eq, hg]
                rfl
            · rw [hget2ne j hji]
              by_cases hc : j ∈ rest ∧ validIn bm j = true
              · rw [if_pos hc, if_pos ⟨List.mem_cons_of_mem _ hc.1, hc.2⟩]
              · rw [if_neg hc,
                  if_neg (fun hc2 =>
                    hc ⟨(List.mem_cons.mp hc2.1).resolve_left hji, hc2.2⟩)]
          · rw [List.foldl_cons, hstep, h3]
        · have hef : e.is_valid = false := by
            cases h : e.is_valid
            · rfl
            · exact absurd h hval
          have hv : validIn bm i = false := by rw [validIn, hg]; exact hef
          have hstep : am4Step (bm, c) i = (bm, c) := by
            simp [am4Step, hg, hg2, hef]
          obtain ⟨h1, h2, h3⟩ := ih bm c
          refine ⟨?_, ?_, ?_⟩
          · rw [List.foldl_cons, hstep, h1, List.countP_cons, hv]
            rfl
          · intro j
            rw [List.foldl_cons, hstep, h2 j]
            by_cases hji : j = i
            · subst hji
              simp [hv]
            · simp [List.mem_cons, hji]
          · rw [List.foldl_cons, hstep]
            exact h3

theorem countP_false_local (l : List ℕ) : l.countP (fun _ => false) = 0 := by
  induction l with
  | nil => rfl
  | cons a rest ih => rw [List.countP_cons, ih]; rfl

/-- C10: the feature applicator only sets `use_edge_sharp := true` on the
valid edges of the selected set — crease, seam, bevel weight (and every
other attribute) of every edge are untouched, edges outside the set are
untouched, the returned count is exactly the number of valid selected
edges (0 for an empty set or empty mesh), the settings argument is
ignored, and applying it twice yields the same mesh as applying it once. -/
theorem C10_applicator_only_sets_sharp (bm : BMesh) (selected : List ℕ)
    (settings : EvolverAutoSharpSettings) :
    ((am4_apply_sharps_to_bmesh bm selected settings).2 =
      selected.countP (validIn bm)) ∧
    (am4_apply_sharps_to_bmesh bm [] settings = (bm, 0)) ∧
    (bm.edges = [] →
      (am4_apply_sharps_to_bmesh bm selected settings).2 = 0) ∧
    (∀ settings2, am4_apply_sharps_to_bmesh bm selected settings =
      am4_apply_sharps_to_bmesh bm selected settings2) ∧
    (∀ j, (am4_apply_sharps_to_bmesh bm selected settings).1.edges.get? j =
      if j ∈ selected ∧ validIn bm j = true
      then (bm.edges.get? j).map markSharp else bm.edges.get? j) ∧
    (∀ j e2,
      (am4_apply_sharps_to_bmesh bm selected settings).1.edges.get? j =
        some e2 →
      ∃ e, bm.edges.get? j = some e ∧ e2.crease = e.crease ∧
        e2.seam = e.seam ∧ e2.bevel_weight = e.bevel_weight ∧
        e2.verts = e.verts ∧ e2.is_valid = e.is_valid ∧
        e2.smooth = e.smooth ∧ e2.link_faces = e.link_faces) ∧
    ((am4_apply_sharps_to_bmesh bm selected settings).1.has_uv_layer =
      bm.has_uv_layer) ∧
    ((am4_apply_sharps_to_bmesh
        (am4_apply_sharps_to_bmesh bm selected settings).1 selected
        settings).1 =
      (am4_apply_sharps_to_bmesh bm selected settings).1) := by
  by_cases hsel : selected.isEmpty
  · have hnil : selected = [] := by
      cases selected with
      | nil => rfl
      | cons a l => simp at hsel
    subst hnil
    refine ⟨by rfl, rfl, fun _ => rfl, fun _ => rfl, ?_, ?_, rfl, rfl⟩
    · intro j
      simp [am4_apply_sharps_to_bmesh]
    · intro j e2 h
      refine ⟨e2, ?_, rfl, rfl, rfl, rfl, rfl, rfl, rfl⟩
      simpa [am4_apply_sharps_to_bmesh] using h
  · have ham4 : am4_apply_sharps_to_bmesh bm selected settings =
        selected.foldl am4Step (bm, 0) := by
      rw [am4_apply_sharps_to_bmesh, if_neg (by simpa using hsel)]
    obtain ⟨h1, h2, h3⟩ := am4_fold_spec selected bm 0
    have hE : ∀ j,
        (am4_apply_sharps_to_bmesh bm selected settings).1.edges.get? j =
          if j ∈ selected ∧ validIn bm j = true
          then (bm.edges.get? j).map markSharp else bm.edges.get? j := by
      intro j
      rw [ham4]
      exact h2 j
    refine ⟨by rw [ham4, h1]; omega, rfl, ?_, fun _ => rfl, hE, ?_, ?_, ?_⟩
    · intro hbm
      rw [ham4, h1]
      have hz : selected.countP (validIn bm) = 0 := by
        rw [countP_congr_local
          (fun a _ => show validIn bm a = false by rw [validIn, hbm]; rfl)]
        exact countP_false_local selected
      omega
    · intro j e2 h
      rw [hE j] at h
      by_cases hc : j ∈ selected ∧ validIn bm j = true
      · rw [if_pos hc] at h
        rcases hg : bm.edges.get? j with _ | e
        · rw [hg] at h; simp at h
        · rw [hg] at h
          have he2 : e2 = markSharp e := by
            have : some e2 = some (markSharp e) := by rw [← h]; rfl
            exact Option.some_injective _ this
          subst he2
          exact ⟨e, rfl, rfl, rfl, rfl, rfl, rfl, rfl, rfl⟩
      · rw [if_neg hc] at h
        exact ⟨e2, h, rfl, rfl, rfl, rfl, rfl, rfl, rfl⟩
    · rw [ham4]
      exact h3
    · -- idempotence
      set bm1 := (am4_apply_sharps_to_bmesh bm selected settings).1 with hbm1
      have ham4b : am4_apply_sharps_to_bmesh bm1 selected settings =
          selected.foldl am4Step (bm1, 0) := by
        rw [am4_apply_sharps_to_bmesh, if_neg (by simpa using hsel)]
      obtain ⟨g1, g2, g3⟩ := am4_fold_spec selected bm1 0
      have hv1 : ∀ j, validIn bm1 j = validIn bm j := by
        intro j
        rw [validIn, validIn, hE j]
        by_cases hc : j ∈ selected ∧ validIn bm j = true
        · rw [if_pos hc]
          obtain ⟨e, hge, _⟩ := (validIn_true_iff bm j).mp hc.2
          rw [hge]
          rfl
        · rw [if_neg hc]
      have hgets : ∀ j,
          (am4_apply_sharps_to_bmesh bm1 selected settings).1.edges.get? j =
            bm1.edges.get? j := by
        intro j
        rw [ham4b, g2 j, hv1 j]
        by_cases hc : j ∈ selected ∧ validIn bm j = true
        · rw [if_pos hc, hE j, if_pos hc]
          obtain ⟨e, hge, _⟩ := (validIn_true_iff bm j).mp hc.2
          rw [hge]
          rfl
        · rw [if_neg hc]
      refine BMesh_eq (List.ext hgets) ?_
      rw [ham4b]
      exact g3

/-- C10 witness mesh: edge 0 valid with authored attributes, edge 1
invalid, edge 2 valid but unselected. -/
def C10_bm : BMesh :=
  { edges := [{ verts := (0, 1), link_faces := [], crease := 3,
                seam := true, bevel_weight := 5 },
              { verts := (1, 2), link_faces := [], is_valid := false },
              { verts := (2, 3), link_faces := [] }] }

/-- Witness for C10 at a concrete input: edges 0 and 1 selected — one
valid edge marked and counted, the invalid and unselected ones untouched. -/
theorem C10_applicator_only_sets_sharp_witness :
    ((am4_apply_sharps_to_bmesh C10_bm [0, 1] C8_settings).2 = 1) ∧
    ((am4_apply_sharps_to_bmesh C10_bm [0, 1] C8_settings).1.edges.get? 2 =
      C10_bm.edges.get? 2) ∧
    (∃ e, C10_bm.edges.get? 0 = some e ∧
      ((am4_apply_sharps_to_bmesh C10_bm [0, 1] C8_settings).1.edges.get? 0 =
        some (markSharp e)) ∧ (markSharp e).crease = e.crease ∧
      (markSharp e).seam = e.seam ∧
      (markSharp e).bevel_weight = e.bevel_weight) ∧
    ((am4_apply_sharps_to_bmesh
        (am4_apply_sharps_to_bmesh C10_bm [0, 1] C8_settings).1 [0, 1]
        C8_settings).1 =
      (am4_apply_sharps_to_bmesh C10_bm [0, 1] C8_settings).1) := by
  obtain ⟨h1, _, _, _, h5, _, _, h8⟩ :=
    C10_applicator_only_sets_sharp C10_bm [0, 1] C8_settings
  refine ⟨by rw [h1]; decide, ?_, ?_, h8⟩
  · rw [h5 2]
    decide
  · refine ⟨{ verts := (0, 1), link_faces := [], crease := 3,
              seam := true, bevel_weight := 5 }, by decide, ?_, rfl, rfl, rfl⟩
    rw [h5 0]
    decide

-- ### Remaining witnesses

/-- Witness for C1: an edge with both `BLENDER_SEAM` and `ANGLE_SHARP`
candidates resolves to `BLENDER_SEAM`, in either candidate order. -/
theorem C1_priority_resolver_selects_lowest_index_witness :
    (∃ w ws,
      resolveDetections [(TYPE_BLENDER_SEAM, (1 : ℚ)), (TYPE_ANGLE_SHARP, 1)] =
        some (w, ws) ∧
      (5, w) ∈ priority_resolved_edges
        [(5, [(TYPE_BLENDER_SEAM, 1), (TYPE_ANGLE_SHARP, 1)])] ∧
      w ∈ [(TYPE_BLENDER_SEAM, (1 : ℚ)), (TYPE_ANGLE_SHARP, 1)] ∧
      ∀ d ∈ [(TYPE_BLENDER_SEAM, (1 : ℚ)), (TYPE_ANGLE_SHARP, 1)],
        idxE w ≤ idxE d) ∧
    ((resolveDetections
        [(TYPE_BLENDER_SEAM, (1 : ℚ)), (TYPE_ANGLE_SHARP, 1)]).map
      (fun r => r.1.1) = some TYPE_BLENDER_SEAM) ∧
    ((resolveDetections
        [(TYPE_ANGLE_SHARP, (1 : ℚ)), (TYPE_BLENDER_SEAM, 1)]).map
      (fun r => r.1.1) = some TYPE_BLENDER_SEAM) :=
  ⟨C1_priority_resolver_selects_lowest_index _ 5 _ (by decide) (by decide)
      (by decide),
   by decide, by decide⟩

/-- Witness for C5: determinism at a concrete input and order-independence
of the resolved tag for a permuted candidate list. -/
theorem C5_determinism_and_order_independence_witness :
    (auto_detect_and_mark_edges angleTest C4_bm C8_settings =
      auto_detect_and_mark_edges angleTest C4_bm C8_settings) ∧
    ((resolveDetections [(TYPE_ANGLE_SHARP, (1 : ℚ)), (TYPE_BLENDER_SEAM, 2)]).map
        (fun r => r.1.1) =
      (resolveDetections [(TYPE_BLENDER_SEAM, (2 : ℚ)), (TYPE_ANGLE_SHARP, 1)]).map
        (fun r => r.1.1)) :=
  ⟨C5_determinism_and_order_independence.1 angleTest C4_bm C8_settings,
   C5_determinism_and_order_independence.2 _ _ (by decide) (by decide)⟩

/-- C6 witness mesh (the mesh is not consulted by the resolver). -/
def C6_bm : BMesh := { edges := [] }

/-- Witness for C6 at a concrete input: a candidate of the unknown type
"MYSTERY_TYPE" next to a recognised `ANGLE_SHARP` candidate. -/
theorem C6_unknown_type_warned_edge_still_resolved_witness :
    (∃ w ws,
      resolveDetections [("MYSTERY_TYPE", (1 : ℚ)), (TYPE_ANGLE_SHARP, 2)] =
        some (w, ws) ∧ "MYSTERY_TYPE" ∈ ws) ∧
    (∃ w, (7, w) ∈ priority_resolved_edges
      [(7, [("MYSTERY_TYPE", (1 : ℚ)), (TYPE_ANGLE_SHARP, 2)])]) ∧
    "MYSTERY_TYPE" ∈ (am3_filter_refine_prioritize C6_bm
      [(7, [("MYSTERY_TYPE", (1 : ℚ)), (TYPE_ANGLE_SHARP, 2)])] 3).2 ∧
    (∀ dr ∈ [("MYSTERY_TYPE", (1 : ℚ)), (TYPE_ANGLE_SHARP, 2)],
      (priorityIndex dr.1).isSome = true →
      ∀ w ws,
        resolveDetections [("MYSTERY_TYPE", (1 : ℚ)), (TYPE_ANGLE_SHARP, 2)] =
          some (w, ws) →
        (priorityIndex w.1).isSome = true) :=
  C6_unknown_type_warned_edge_still_resolved C6_bm _ 3 7 _
    ("MYSTERY_TYPE", 1) (by decide) (by decide) (by decide)
